import Mathlib

/-!
Verification of the deterministic text tokenization and label-scoring
pipeline of `src/backend/src/text-service/bilstm_onnx_inference.py`.

The Python source is shallowly embedded: text is a `List Char`, the model
raw scores (numpy float vector) are modelled as `List ℚ`, the Python dict
is an association list with overwrite-on-reassignment semantics, and the
CLI entry point is a pure function from its arguments and the outcomes of
the external collaborators (dependency import, model load, inference) to
the printed JSON payload and the process exit status.
-/

/-- The Python whitespace class `\s` (ASCII fragment, as matched by
`re` on the characters that survive this pipeline):
space, tab, newline, carriage return, vertical tab, form feed. -/
def isPyWhitespace (c : Char) : Bool :=
  c = ' ' || c = '\t' || c = '\n' || c = '\x0d' || c = '\x0b' || c = '\x0c'

/-- ASCII lowercasing, embedding `str.lower()` on the ASCII fragment
relevant to this pipeline (all non-`[a-z\s]` characters are stripped
immediately afterwards by `preprocess_text`).  Codepoints 65-90 are
`A`-`Z`; adding 32 yields `a`-`z`. -/
def asciiLower (c : Char) : Char :=
  if 65 ≤ c.toNat ∧ c.toNat ≤ 90 then Char.ofNat (c.toNat + 32) else c

/-- Membership in `[a-z]` (codepoints 97-122), the character class kept
(besides whitespace) by `re.sub(r'[^a-z\s]', '', text)`. -/
def isLowerAZ (c : Char) : Bool := 97 ≤ c.toNat && c.toNat ≤ 122

/-- A character kept by `re.sub(r'[^a-z\s]', '', text)`. -/
def keepChar (c : Char) : Bool := isLowerAZ c || isPyWhitespace c

/-- Worker for `pySplit`: scans the text left to right accumulating the
current word (in reverse) and emitting it at each whitespace boundary. -/
def pySplitAux : List Char → List Char → List (List Char)
  | [], acc => if acc.isEmpty then [] else [acc.reverse]
  | c :: cs, acc =>
    if isPyWhitespace c then
      if acc.isEmpty then pySplitAux cs [] else acc.reverse :: pySplitAux cs []
    else
      pySplitAux cs (c :: acc)

/-- Python `str.split()` with no argument: split on runs of whitespace,
discarding empty pieces. -/
def pySplit (l : List Char) : List (List Char) := pySplitAux l []

/-- Python `' '.join(ws)`: the pieces joined with a single space between
consecutive pieces. -/
def joinSp : List (List Char) → List Char
  | [] => []
  | [w] => w
  | w :: ws => w ++ ' ' :: joinSp ws

/-- The first two steps of `preprocess_text`: `text.lower()` followed by
`re.sub(r'[^a-z\s]', '', text)`. -/
def normChars (t : List Char) : List Char := (t.map asciiLower).filter keepChar

/-- `TextTokenizer.preprocess_text`: lowercase, strip every character not
in `[a-z\s]`, then `' '.join(text.split())` (collapse whitespace runs to
single spaces and trim). -/
def preprocessText (t : List Char) : List Char :=
  joinSp (pySplit (normChars t))

/-- The `common_words` list of `TextTokenizer._build_basic_vocab`, in
source order (including the duplicated `'excited'` entry). -/
def commonWords : List String :=
  ["<PAD>", "<UNK>",
   "i", "you", "he", "she", "it", "we", "they",
   "am", "is", "are", "was", "were", "be", "been", "being",
   "have", "has", "had", "do", "does", "did",
   "will", "would", "could", "should", "may", "might", "must",
   "can", "cannot", "cant",
   "the", "a", "an", "and", "or", "but", "if", "then",
   "not", "no", "yes",
   "happy", "sad", "angry", "fear", "scared", "afraid",
   "joy", "joyful", "excited", "excited",
   "upset", "frustrated", "annoyed", "mad",
   "love", "hate", "like", "dislike",
   "good", "bad", "great", "terrible", "awful",
   "feel", "feeling", "felt",
   "very", "really", "so", "too", "much",
   "sorry", "please", "thank", "thanks",
   "help", "need", "want", "wish",
   "think", "thought", "know", "believe",
   "see", "look", "hear", "listen",
   "go", "come", "get", "make", "take",
   "day", "time", "way", "people", "thing",
   "work", "life", "world", "home", "friend",
   "tell", "say", "said", "ask", "asked",
   "just", "now", "today", "never", "always",
   "about", "after", "before", "because", "when", "where",
   "what", "why", "how", "who", "which"]

/-- The assignment sequence building `word_index`: the dict comprehension
`{word: idx + 1 for idx, word in enumerate(common_words)}` followed by the
two overriding assignments `word_index['<PAD>'] = 0` and
`word_index['<UNK>'] = 1`.  Listed in assignment order; a later
assignment to the same key wins, as in a Python dict. -/
def wordIndexPairs : List (List Char × Nat) :=
  (commonWords.enum.map fun p => (p.2.data, p.1 + 1))
    ++ [("<PAD>".data, 0), ("<UNK>".data, 1)]

/-- `self.word_index.get(w)`: the value of the latest assignment to key
`w`, if any (Python dict lookup). -/
def wordIndexGet (w : List Char) : Option Nat :=
  wordIndexPairs.reverse.lookup w

/-- `self.word_index.get(word, self.word_index['<UNK>'])`.  The inner
mandatory lookup `word_index['<UNK>']` always succeeds in the source (the
key is assigned in `_build_basic_vocab`); the `getD 0` default is never
reached. -/
def tokenOf (w : List Char) : Nat :=
  (wordIndexGet w).getD ((wordIndexGet "<UNK>".data).getD 0)

/-- `max_length=80`, the default used by `main` (`TextTokenizer(max_length=80)`). -/
def maxLength : Nat := 80

/-- `TextTokenizer.tokenize`: preprocess, split into words, map the first
`max_length` words through the vocabulary (unknown words to `<UNK>`), and
right-pad with 0 to `max_length`.  (The numpy reshape to `(1, max_length)`
is dropped; the sequence content is what the claims are about.) -/
def tokenize (t : List Char) : List Nat :=
  let text := preprocessText t
  let words := pySplit text
  let seq := (words.take maxLength).map tokenOf
  seq ++ List.replicate (maxLength - seq.length) 0

/-- `np.count_nonzero` on the flat token sequence. -/
def countNonzero (l : List Nat) : Nat := (l.filter (fun x => x != 0)).length

/-- `np.argmax` on a nonempty vector: the least index attaining the
maximum (numpy documents that the first occurrence is returned in case
of ties).  Raw scores (numpy floats) are modelled as rationals; the
empty-vector `ValueError` is modelled at the call site. -/
def npArgmax : List ℚ → Nat
  | [] => 0
  | [_] => 0
  | x :: y :: ys =>
    if x < (y :: ys).getD (npArgmax (y :: ys)) 0 then npArgmax (y :: ys) + 1 else 0

/-- The fields of the success JSON object built by `predict_emotion`. -/
structure SuccessPayload where
  emotion : String
  confidence : ℚ
  scores : List (String × ℚ)
  model : String
  text_length : Nat
  tokens_used : Nat
  deriving Repr, DecidableEq

/-- The JSON object printed to stdout: either the success shape or
`{"success": false, "error": ...}`. -/
inductive PredictResult where
  | success (payload : SuccessPayload)
  | failure (error : String)
  deriving Repr, DecidableEq

/-- The f-string of the label-count validation in `predict_emotion`. -/
def mismatchMsg (outputSize labelCount : Nat) : String :=
  "Model output size (" ++ toString outputSize ++
    ") doesn\x27t match emotion labels count (" ++ toString labelCount ++
    "). Model expects " ++ toString outputSize ++ " emotions."

/-- The message printed when `np.argmax` is applied to an empty vector:
the `ValueError` text wrapped by the `except` branch of
`predict_emotion` (`f"Prediction failed: {str(e)}"`). -/
def emptyArgmaxMsg : String :=
  "Prediction failed: attempt to get argmax of an empty sequence"

/-- One Python dict assignment `d[k] = v`: overwrite in place if the key
exists (insertion order preserved), else append. -/
def dictInsert (d : List (String × ℚ)) (k : String) (v : ℚ) : List (String × ℚ) :=
  if d.any (fun p => p.1 == k) then
    d.map (fun p => if p.1 == k then (k, v) else p)
  else d ++ [(k, v)]

/-- The loop `for idx, label in enumerate(emotion_labels): scores[label] =
float(predictions[idx])`, with `i` the current value of `idx`. -/
def scoresDictAux (preds : List ℚ) : List String → Nat → List (String × ℚ) → List (String × ℚ)
  | [], _, d => d
  | l :: ls, i, d => scoresDictAux preds ls (i + 1) (dictInsert d l (preds.getD i 0))

/-- The `scores` dict of `predict_emotion`. -/
def scoresDict (preds : List ℚ) (labels : List String) : List (String × ℚ) :=
  scoresDictAux preds labels 0 []

/-- The result-formatting tail of `predict_emotion` (everything after the
model produced its output vector `predictions`): the label-count
validation, `np.argmax`, the scores dict, and the success payload.  The
`[]` branch models the `ValueError` numpy raises for `np.argmax` of an
empty sequence, caught by the surrounding `except` and turned into a
failure result. -/
def formatResult (predictions : List ℚ) (emotionLabels : List String) (text : List Char) :
    PredictResult :=
  if predictions.length ≠ emotionLabels.length then
    .failure (mismatchMsg predictions.length emotionLabels.length)
  else
    match predictions with
    | [] => .failure emptyArgmaxMsg
    | _ :: _ =>
      .success
        { emotion := emotionLabels.getD (npArgmax predictions) ""
          confidence := predictions.getD (npArgmax predictions) 0
          scores := scoresDict predictions emotionLabels
          model := "bilstm_onnx"
          text_length := text.length
          tokens_used := countNonzero (tokenize text) }

/-- The import-failure message printed when `onnxruntime` is missing. -/
def depMsg : String :=
  "onnxruntime not installed. Install with: pip install onnxruntime"

/-- The usage message printed by `main` for fewer than 3 CLI arguments. -/
def usageMsg : String :=
  "Usage: python bilstm_onnx_inference.py <model_path> <text> <emotion_labels>"

/-- The message printed by `main` for blank input text. -/
def emptyTextMsg : String := "Empty text provided"

/-- `not text or len(text.strip()) == 0`: true iff every character is
whitespace (including the empty string). -/
def isBlank (t : List Char) : Bool := t.all isPyWhitespace

/-- Worker for `pySplitComma`, accumulating the current piece in reverse. -/
def splitCommaAux : List Char → List Char → List String
  | [], acc => [String.mk acc.reverse]
  | c :: cs, acc =>
    if c = ',' then String.mk acc.reverse :: splitCommaAux cs []
    else splitCommaAux cs (c :: acc)

/-- Python `s.split(',')` as used for `sys.argv[3].split(',')`: split at
every comma, keeping empty pieces (so the result is always nonempty). -/
def pySplitComma (s : String) : List String := splitCommaAux s.data []

/-- The CLI entry point `main` (plus the module-level guard on the
`onnxruntime` dependency), as a pure function from `sys.argv` and the outcomes of
the external collaborators to the JSON object printed on stdout and the
process exit status.  `loadResult` is the outcome of
`ort.InferenceSession` (wrapped by `load_onnx_model`, whose re-raised
exception is caught by `main`), and `inferResult` the outcome of
`session.run` projected to `outputs[0][0]` (whose exception is caught
inside `predict_emotion`).  After `predict_emotion` returns, `main`
prints its result and falls off the end of the `try` block, so the
process exits with status 0 whether or not that result is a success. -/
def mainRun (argv : List String) (onnxAvailable : Bool)
    (loadResult : Except String Unit) (inferResult : Except String (List ℚ)) :
    PredictResult × Nat :=
  if !onnxAvailable then (.failure depMsg, 1)
  else if argv.length < 4 then (.failure usageMsg, 1)
  else
    let text := argv.getD 2 ""
    let emotionLabels := pySplitComma (argv.getD 3 "")
    if isBlank text.data then (.failure emptyTextMsg, 1)
    else
      match loadResult with
      | .error e => (.failure ("Failed to load ONNX model: " ++ e), 1)
      | .ok _ =>
        match inferResult with
        | .error e => (.failure ("Prediction failed: " ++ e), 0)
        | .ok predictions => (formatResult predictions emotionLabels text.data, 0)

set_option maxRecDepth 10000

theorem pySplitAux_ne_nil (l : List Char) :
    ∀ (acc w : List Char), w ∈ pySplitAux l acc → w ≠ [] := by
  induction l with
  | nil =>
    intro acc w hw
    cases acc with
    | nil => simp [pySplitAux] at hw
    | cons a as =>
      simp [pySplitAux] at hw
      subst hw
      simp
  | cons c cs ih =>
    intro acc w hw
    cases hc : isPyWhitespace c with
    | true =>
      cases acc with
      | nil =>
        simp [pySplitAux, hc] at hw
        exact ih [] w hw
      | cons a as =>
        simp [pySplitAux, hc] at hw
        rcases hw with h | h
        · subst h; simp
        · exact ih [] w h
    | false =>
      simp [pySplitAux, hc] at hw
      exact ih (c :: acc) w hw

theorem mem_of_mem_pySplitAux (l : List Char) :
    ∀ (acc w : List Char) (c : Char), w ∈ pySplitAux l acc → c ∈ w →
      c ∈ acc ∨ (c ∈ l ∧ isPyWhitespace c = false) := by
  induction l with
  | nil =>
    intro acc w c hw hc
    cases acc with
    | nil => simp [pySplitAux] at hw
    | cons a as =>
      simp [pySplitAux] at hw
      subst hw
      left
      simp only [List.mem_append, List.mem_reverse, List.mem_singleton] at hc
      rcases hc with h | h
      · exact List.mem_cons_of_mem a h
      · rw [h]; exact List.mem_cons_self a as
  | cons d ds ih =>
    intro acc w c hw hc
    cases hd : isPyWhitespace d with
    | true =>
      cases acc with
      | nil =>
        simp [pySplitAux, hd] at hw
        rcases ih [] w c hw hc with h | ⟨h1, h2⟩
        · simp at h
        · exact Or.inr ⟨List.mem_cons_of_mem d h1, h2⟩
      | cons a as =>
        simp [pySplitAux, hd] at hw
        rcases hw with h | h
        · subst h
          left
          simp only [List.mem_append, List.mem_reverse, List.mem_singleton] at hc
          rcases hc with h | h
          · exact List.mem_cons_of_mem a h
          · rw [h]; exact List.mem_cons_self a as
        · rcases ih [] w c h hc with h' | ⟨h1, h2⟩
          · simp at h'
          · exact Or.inr ⟨List.mem_cons_of_mem d h1, h2⟩
    | false =>
      simp [pySplitAux, hd] at hw
      rcases ih (d :: acc) w c hw hc with h | ⟨h1, h2⟩
      · rcases List.mem_cons.mp h with h' | h'
        · refine Or.inr ⟨?_, ?_⟩
          · rw [h']; exact List.mem_cons_self d ds
          · rw [h']; exact hd
        · exact Or.inl h'
      · exact Or.inr ⟨List.mem_cons_of_mem d h1, h2⟩

theorem pySplitAux_append (w : List Char) :
    ∀ (l acc : List Char), (∀ c ∈ w, isPyWhitespace c = false) →
      pySplitAux (w ++ l) acc = pySplitAux l (w.reverse ++ acc) := by
  induction w with
  | nil => intro l acc _; simp
  | cons a as ih =>
    intro l acc hw
    have ha : isPyWhitespace a = false := hw a (List.mem_cons_self a as)
    have has : ∀ c ∈ as, isPyWhitespace c = false :=
      fun c hc => hw c (List.mem_cons_of_mem a hc)
    rw [List.cons_append]
    rw [show pySplitAux (a :: (as ++ l)) acc = pySplitAux (as ++ l) (a :: acc) by
      simp [pySplitAux, ha]]
    rw [ih l (a :: acc) has]
    simp

theorem mem_joinSp (ws : List (List Char)) :
    ∀ c : Char, c ∈ joinSp ws → c = ' ' ∨ ∃ w ∈ ws, c ∈ w := by
  induction ws with
  | nil => intro c hc; simp [joinSp] at hc
  | cons w ws ih =>
    intro c hc
    cases ws with
    | nil =>
      simp [joinSp] at hc
      exact Or.inr ⟨w, by simp, hc⟩
    | cons v vs =>
      simp only [joinSp, List.mem_append, List.mem_cons] at hc
      rcases hc with h | h | h
      · exact Or.inr ⟨w, by simp, h⟩
      · exact Or.inl h
      · rcases ih c h with h' | ⟨u, hu, hcu⟩
        · exact Or.inl h'
        · exact Or.inr ⟨u, List.mem_cons_of_mem w hu, hcu⟩

theorem pySplit_joinSp (ws : List (List Char))
    (h1 : ∀ w ∈ ws, w ≠ [])
    (h2 : ∀ w ∈ ws, ∀ c ∈ w, isPyWhitespace c = false) :
    pySplit (joinSp ws) = ws := by
  induction ws with
  | nil => rfl
  | cons w ws ih =>
    cases ws with
    | nil =>
      show pySplitAux (joinSp [w]) [] = [w]
      have hjw : joinSp [w] = w ++ [] := by simp [joinSp]
      rw [hjw, pySplitAux_append w [] [] (h2 w (by simp))]
      have hw : w ≠ [] := h1 w (by simp)
      simp [pySplitAux, hw]
    | cons v vs =>
      show pySplitAux (joinSp (w :: v :: vs)) [] = w :: v :: vs
      have hjw : joinSp (w :: v :: vs) = w ++ ' ' :: joinSp (v :: vs) := by
        simp [joinSp]
      rw [hjw, pySplitAux_append w (' ' :: joinSp (v :: vs)) []
        (h2 w (List.mem_cons_self w _))]
      have hw : w ≠ [] := h1 w (List.mem_cons_self w _)
      have hws : isPyWhitespace ' ' = true := by decide
      simp only [pySplitAux, hws, if_true, List.append_nil]
      rw [if_neg (by simp [hw])]
      rw [List.reverse_reverse]
      have := ih (fun u hu => h1 u (List.mem_cons_of_mem w hu))
        (fun u hu => h2 u (List.mem_cons_of_mem w hu))
      exact congrArg (w :: ·) this

theorem toNat_le_of_isPyWhitespace (c : Char) (h : isPyWhitespace c = true) :
    c.toNat ≤ 32 := by
  simp only [isPyWhitespace, Bool.or_eq_true, decide_eq_true_eq] at h
  rcases h with ((((h | h) | h) | h) | h) | h <;> subst h <;> decide

theorem isPyWhitespace_eq_false_of_isLowerAZ (c : Char) (h : isLowerAZ c = true) :
    isPyWhitespace c = false := by
  simp only [isLowerAZ, Bool.and_eq_true, decide_eq_true_eq] at h
  cases hws : isPyWhitespace c with
  | false => rfl
  | true => exact absurd (toNat_le_of_isPyWhitespace c hws) (by omega)

theorem asciiLower_fixed (c : Char) (h : isLowerAZ c = true ∨ c = ' ') :
    asciiLower c = c := by
  have hcond : ¬(65 ≤ c.toNat ∧ c.toNat ≤ 90) := by
    rcases h with h | h
    · simp only [isLowerAZ, Bool.and_eq_true, decide_eq_true_eq] at h
      omega
    · subst h; decide
  rw [asciiLower, if_neg hcond]

theorem keepChar_of (c : Char) (h : isLowerAZ c = true ∨ c = ' ') :
    keepChar c = true := by
  rcases h with h | h
  · simp [keepChar, h]
  · subst h; decide

theorem normWords_ne_nil (t : List Char) :
    ∀ w ∈ pySplit (normChars t), w ≠ [] :=
  fun w hw => pySplitAux_ne_nil (normChars t) [] w hw

theorem normWords_az (t : List Char) :
    ∀ w ∈ pySplit (normChars t), ∀ c ∈ w, isLowerAZ c = true := by
  intro w hw c hc
  rcases mem_of_mem_pySplitAux (normChars t) [] w c hw hc with h | ⟨h1, h2⟩
  · simp at h
  · have hk : keepChar c = true := (List.mem_filter.mp h1).2
    simpa [keepChar, h2] using hk

theorem pySplit_preprocessText (t : List Char) :
    pySplit (preprocessText t) = pySplit (normChars t) := by
  unfold preprocessText
  exact pySplit_joinSp (pySplit (normChars t)) (normWords_ne_nil t)
    (fun w hw c hc => isPyWhitespace_eq_false_of_isLowerAZ c (normWords_az t w hw c hc))

theorem preprocessText_chars (t : List Char) :
    ∀ c ∈ preprocessText t, isLowerAZ c = true ∨ c = ' ' := by
  intro c hc
  rcases mem_joinSp (pySplit (normChars t)) c hc with h | ⟨w, hw, hcw⟩
  · exact Or.inr h
  · exact Or.inl (normWords_az t w hw c hcw)

theorem normChars_fixed (l : List Char) (h : ∀ c ∈ l, isLowerAZ c = true ∨ c = ' ') :
    normChars l = l := by
  induction l with
  | nil => rfl
  | cons a as ih =>
    have ha := h a (List.mem_cons_self a as)
    show ((a :: as).map asciiLower).filter keepChar = a :: as
    rw [List.map_cons, asciiLower_fixed a ha]
    rw [List.filter_cons_of_pos (keepChar_of a ha)]
    exact congrArg (a :: ·) (ih (fun c hc => h c (List.mem_cons_of_mem a hc)))

/-- C8's content: `preprocess_text` is idempotent. -/
theorem preprocessText_preprocessText (t : List Char) :
    preprocessText (preprocessText t) = preprocessText t := by
  show joinSp (pySplit (normChars (preprocessText t))) = preprocessText t
  rw [normChars_fixed (preprocessText t) (preprocessText_chars t)]
  rw [pySplit_preprocessText]
  rfl

theorem mem_of_lookup_eq_some {α : Type} {β : Type} [BEq α] [LawfulBEq α] :
    ∀ (l : List (α × β)) (k : α) (v : β), l.lookup k = some v → (k, v) ∈ l := by
  intro l k v
  induction l with
  | nil => intro h; simp [List.lookup] at h
  | cons p ps ih =>
    intro h
    cases p with
    | mk k' v' =>
      cases hk : k == k' with
      | true =>
        have hkk : k = k' := eq_of_beq hk
        rw [List.lookup, hk] at h
        have hv : v' = v := by simpa using h
        subst hkk; subst hv
        exact List.mem_cons_self _ _
      | false =>
        rw [List.lookup, hk] at h
        exact List.mem_cons_of_mem _ (ih h)

theorem wordIndexPairs_val_zero :
    ∀ p ∈ wordIndexPairs, p.2 = 0 → p.1 = "<PAD>".data := by decide

theorem wordIndexGet_unk : wordIndexGet "<UNK>".data = some 1 := by decide

theorem tokenOf_ne_zero (w : List Char) (_hne : w ≠ [])
    (haz : ∀ c ∈ w, isLowerAZ c = true) : tokenOf w ≠ 0 := by
  unfold tokenOf
  cases hg : wordIndexGet w with
  | none => rw [wordIndexGet_unk]; simp
  | some v =>
    simp only [Option.getD_some]
    intro hv
    subst hv
    have hmem : (w, 0) ∈ wordIndexPairs :=
      List.mem_reverse.mp (mem_of_lookup_eq_some wordIndexPairs.reverse w 0 hg)
    have hpad : w = "<PAD>".data := wordIndexPairs_val_zero (w, 0) hmem rfl
    have hlt : isLowerAZ '<' = true := haz '<' (by rw [hpad]; decide)
    exact absurd hlt (by decide)

theorem tokenize_words_az (t : List Char) :
    ∀ w ∈ pySplit (preprocessText t), w ≠ [] ∧ ∀ c ∈ w, isLowerAZ c = true := by
  rw [pySplit_preprocessText]
  exact fun w hw => ⟨normWords_ne_nil t w hw, normWords_az t w hw⟩

theorem tokenize_length (t : List Char) : (tokenize t).length = maxLength := by
  simp only [tokenize, List.length_append, List.length_replicate, List.length_map,
    List.length_take]
  omega

theorem tokenize_of_empty_norm (t : List Char) (h : preprocessText t = []) :
    tokenize t = List.replicate maxLength 0 := by
  show ((pySplit (preprocessText t)).take maxLength).map tokenOf ++
      List.replicate (maxLength - (((pySplit (preprocessText t)).take maxLength).map tokenOf).length) 0
    = List.replicate maxLength 0
  rw [h]
  rfl

theorem countNonzero_tokenize (t : List Char) :
    countNonzero (tokenize t) = min (pySplit (preprocessText t)).length maxLength := by
  show (((((pySplit (preprocessText t)).take maxLength).map tokenOf) ++
      List.replicate (maxLength - (((pySplit (preprocessText t)).take maxLength).map tokenOf).length) 0).filter
        (fun x => x != 0)).length = _
  rw [List.filter_append]
  have h0 : (List.replicate (maxLength - (((pySplit (preprocessText t)).take maxLength).map tokenOf).length) 0).filter
      (fun x => x != 0) = [] := by
    simp
  rw [h0, List.append_nil]
  have hall : (((pySplit (preprocessText t)).take maxLength).map tokenOf).filter (fun x => x != 0)
      = ((pySplit (preprocessText t)).take maxLength).map tokenOf := by
    rw [List.filter_eq_self]
    intro a ha
    rcases List.mem_map.mp ha with ⟨w, hw, rfl⟩
    have hw' : w ∈ pySplit (preprocessText t) := List.take_subset maxLength _ hw
    rcases tokenize_words_az t w hw' with ⟨hne, haz⟩
    simpa using tokenOf_ne_zero w hne haz
  rw [hall]
  simp [Nat.min_comm]

theorem npArgmax_lt_length : ∀ (l : List ℚ), l ≠ [] → npArgmax l < l.length := by
  intro l
  induction l with
  | nil => intro h; exact absurd rfl h
  | cons x xs ih =>
    intro _
    cases xs with
    | nil => simp [npArgmax]
    | cons y ys =>
      rw [npArgmax]
      split
      · have := ih (by simp)
        simp only [List.length_cons] at this ⊢
        omega
      · simp

theorem npArgmax_is_max : ∀ (l : List ℚ) (j : Nat), j < l.length →
    l.getD j 0 ≤ l.getD (npArgmax l) 0 := by
  intro l
  induction l with
  | nil => intro j hj; simp at hj
  | cons x xs ih =>
    intro j hj
    cases xs with
    | nil =>
      have hj0 : j = 0 := by simpa using hj
      subst hj0
      simp [npArgmax]
    | cons y ys =>
      rw [npArgmax]
      by_cases hlt : x < (y :: ys).getD (npArgmax (y :: ys)) 0
      · rw [if_pos hlt, List.getD_cons_succ]
        cases j with
        | zero => exact le_of_lt (by simpa using hlt)
        | succ i =>
          rw [List.getD_cons_succ]
          exact ih i (by simpa using hj)
      · rw [if_neg hlt]
        push_neg at hlt
        cases j with
        | zero => simp
        | succ i =>
          rw [List.getD_cons_succ, List.getD_cons_zero]
          exact le_trans (ih i (by simpa using hj)) hlt

theorem npArgmax_first : ∀ (l : List ℚ) (j : Nat), j < npArgmax l →
    l.getD j 0 < l.getD (npArgmax l) 0 := by
  intro l
  induction l with
  | nil => intro j hj; simp [npArgmax] at hj
  | cons x xs ih =>
    intro j hj
    cases xs with
    | nil => simp [npArgmax] at hj
    | cons y ys =>
      rw [npArgmax] at hj ⊢
      by_cases hlt : x < (y :: ys).getD (npArgmax (y :: ys)) 0
      · rw [if_pos hlt] at hj ⊢
        rw [List.getD_cons_succ]
        cases j with
        | zero => simpa using hlt
        | succ i =>
          rw [List.getD_cons_succ]
          exact ih i (Nat.lt_of_succ_lt_succ hj)
      · rw [if_neg hlt] at hj
        exact absurd hj (Nat.not_lt_zero j)

theorem formatResult_success_inv (preds : List ℚ) (labels : List String)
    (t : List Char) (r : SuccessPayload)
    (h : formatResult preds labels t = .success r) :
    preds.length = labels.length ∧ preds ≠ [] ∧
    r = { emotion := labels.getD (npArgmax preds) ""
          confidence := preds.getD (npArgmax preds) 0
          scores := scoresDict preds labels
          model := "bilstm_onnx"
          text_length := t.length
          tokens_used := countNonzero (tokenize t) } := by
  unfold formatResult at h
  split at h
  · exact absurd h (by simp)
  · rename_i hlen
    cases preds with
    | nil => exact absurd h (by simp)
    | cons p ps =>
      refine ⟨not_not.mp hlen, List.cons_ne_nil p ps, ?_⟩
      injection h with h'
      exact h'.symm

theorem dictInsert_fresh (d : List (String × ℚ)) (k : String) (v : ℚ)
    (h : ∀ v', (k, v') ∉ d) : dictInsert d k v = d ++ [(k, v)] := by
  unfold dictInsert
  rw [if_neg]
  intro hany
  rcases List.any_eq_true.mp hany with ⟨p, hp, hpk⟩
  have hp1 : p.1 = k := by simpa using hpk
  have hp' : (k, p.2) ∈ d := by rw [← hp1]; simpa using hp
  exact h p.2 hp'

theorem scoresDictAux_spec (preds : List ℚ) :
    ∀ (labels : List String) (i : Nat) (d : List (String × ℚ)),
      labels.Nodup → (∀ l ∈ labels, ∀ v, (l, v) ∉ d) →
      (scoresDictAux preds labels i d).length = d.length + labels.length ∧
      (∀ p ∈ d, p ∈ scoresDictAux preds labels i d) ∧
      (∀ j < labels.length,
        (labels.getD j "", preds.getD (i + j) 0) ∈ scoresDictAux preds labels i d) := by
  intro labels
  induction labels with
  | nil =>
    intro i d _ _
    exact ⟨by simp [scoresDictAux], fun p hp => hp, fun j hj => absurd hj (by simp)⟩
  | cons l ls ih =>
    intro i d hnd hfresh
    have hfresh_l : ∀ v, (l, v) ∉ d := hfresh l (List.mem_cons_self _ _)
    have hins : dictInsert d l (preds.getD i 0) = d ++ [(l, preds.getD i 0)] :=
      dictInsert_fresh d l _ hfresh_l
    rw [scoresDictAux, hins]
    have hnd' : ls.Nodup := (List.nodup_cons.mp hnd).2
    have hlnotin : l ∉ ls := (List.nodup_cons.mp hnd).1
    have hfresh' : ∀ l' ∈ ls, ∀ v, (l', v) ∉ d ++ [(l, preds.getD i 0)] := by
      intro l' hl' v hv
      rcases List.mem_append.mp hv with h | h
      · exact hfresh l' (List.mem_cons_of_mem _ hl') v h
      · have hll : l' = l := by
          have := List.mem_singleton.mp h
          simpa using congrArg Prod.fst this
        exact hlnotin (hll ▸ hl')
    obtain ⟨hlen, hpres, hidx⟩ := ih (i + 1) (d ++ [(l, preds.getD i 0)]) hnd' hfresh'
    refine ⟨?_, ?_, ?_⟩
    · rw [hlen]; simp; omega
    · intro p hp; exact hpres p (List.mem_append_left _ hp)
    · intro j hj
      cases j with
      | zero =>
        rw [List.getD_cons_zero, Nat.add_zero]
        exact hpres (l, preds.getD i 0) (List.mem_append_right _ (by simp))
      | succ j' =>
        have hmem := hidx j' (by simpa using hj)
        have harith : i + (j' + 1) = (i + 1) + j' := by omega
        rw [List.getD_cons_succ, harith]
        exact hmem

/-- C2: for every input string, `tokenize` returns exactly `max_length`
(80) integers; the mapped word sequence is truncated to the first
`max_length` entries if longer and right-padded with index 0 if
shorter. -/
theorem claim_C2_tokenize_fixed_length (t : List Char) :
    (tokenize t).length = maxLength ∧
    (maxLength ≤ (pySplit (preprocessText t)).length →
      tokenize t = ((pySplit (preprocessText t)).map tokenOf).take maxLength) ∧
    ((pySplit (preprocessText t)).length < maxLength →
      tokenize t = (pySplit (preprocessText t)).map tokenOf ++
        List.replicate (maxLength - (pySplit (preprocessText t)).length) 0) := by
  refine ⟨tokenize_length t, ?_, ?_⟩
  · intro h
    have hlen : ((((pySplit (preprocessText t)).take maxLength).map tokenOf)).length
        = maxLength := by
      simp only [List.length_map, List.length_take]
      omega
    show (((pySplit (preprocessText t)).take maxLength).map tokenOf) ++
        List.replicate
          (maxLength - ((((pySplit (preprocessText t)).take maxLength).map tokenOf)).length) 0
      = ((pySplit (preprocessText t)).map tokenOf).take maxLength
    rw [hlen, Nat.sub_self, List.replicate_zero, List.append_nil, List.map_take]
  · intro h
    have htake : (pySplit (preprocessText t)).take maxLength = pySplit (preprocessText t) :=
      List.take_of_length_le (Nat.le_of_lt h)
    show (((pySplit (preprocessText t)).take maxLength).map tokenOf) ++
        List.replicate
          (maxLength - ((((pySplit (preprocessText t)).take maxLength).map tokenOf)).length) 0
      = _
    rw [htake, List.length_map]

/-- C2 witness: a three-word input is mapped and padded to 80 entries. -/
theorem claim_C2_witness :
    (tokenize "i am happy".data).length = maxLength ∧
    (pySplit (preprocessText "i am happy".data)).length < maxLength ∧
    tokenize "i am happy".data =
      (pySplit (preprocessText "i am happy".data)).map tokenOf ++
        List.replicate (maxLength - (pySplit (preprocessText "i am happy".data)).length) 0 :=
  ⟨(claim_C2_tokenize_fixed_length "i am happy".data).1, by decide,
    (claim_C2_tokenize_fixed_length "i am happy".data).2.2 (by decide)⟩

/-- C5: every normalized word absent from the vocabulary is mapped to the
reserved unknown index 1; in particular `tokenize "xyzzy"` starts with 1
followed by 79 padding zeros. -/
theorem claim_C5_unknown_word :
    (∀ w : List Char, wordIndexGet w = none → tokenOf w = 1) ∧
    tokenize "xyzzy".data = 1 :: List.replicate 79 0 := by
  constructor
  · intro w h
    unfold tokenOf
    rw [h, wordIndexGet_unk]
    rfl
  · decide

/-- C5 witness: a concrete out-of-vocabulary word mapped through the
first conjunct of the claim. -/
theorem claim_C5_witness :
    wordIndexGet "qwerty".data = none ∧ tokenOf "qwerty".data = 1 :=
  ⟨by decide, claim_C5_unknown_word.1 "qwerty".data (by decide)⟩

/-- C8: `preprocess_text` (lowercase, strip non-letters, collapse
whitespace, trim) is idempotent. -/
theorem claim_C8_preprocess_idempotent (t : List Char) :
    preprocessText (preprocessText t) = preprocessText t :=
  preprocessText_preprocessText t

/-- C9: any input that normalizes to the empty string tokenizes to the
all-zero sequence of length `max_length`; the tokenizer is a total
function with no failure mode (it is defined without any error
result). -/
theorem claim_C9_empty_norm (t : List Char) (h : preprocessText t = []) :
    tokenize t = List.replicate maxLength 0 :=
  tokenize_of_empty_norm t h

/-- C9 witness: a digits-and-punctuation input normalizes to empty and
tokenizes to pure padding. -/
theorem claim_C9_witness :
    preprocessText "12345!?".data = [] ∧
    tokenize "12345!?".data = List.replicate maxLength 0 :=
  ⟨by decide, claim_C9_empty_norm "12345!?".data (by decide)⟩

/-- C3: for equal-length (nonempty) score and label vectors, the
formatter succeeds with `emotion` the label at the index `np.argmax`
returns, `confidence` that maximum score as-is, and the index is the
first (lowest) one attaining the maximum. -/
theorem claim_C3_argmax_emotion (preds : List ℚ) (labels : List String) (t : List Char)
    (hlen : preds.length = labels.length) (hne : preds ≠ []) :
    ∃ r, formatResult preds labels t = PredictResult.success r ∧
      r.emotion = labels.getD (npArgmax preds) "" ∧
      r.confidence = preds.getD (npArgmax preds) 0 ∧
      npArgmax preds < preds.length ∧
      (∀ j < preds.length, preds.getD j 0 ≤ preds.getD (npArgmax preds) 0) ∧
      (∀ j < preds.length, preds.getD j 0 = preds.getD (npArgmax preds) 0 →
        npArgmax preds ≤ j) := by
  cases preds with
  | nil => exact absurd rfl hne
  | cons p ps =>
    have hfr : formatResult (p :: ps) labels t = PredictResult.success
        { emotion := labels.getD (npArgmax (p :: ps)) ""
          confidence := (p :: ps).getD (npArgmax (p :: ps)) 0
          scores := scoresDict (p :: ps) labels
          model := "bilstm_onnx"
          text_length := t.length
          tokens_used := countNonzero (tokenize t) } := by
      unfold formatResult
      rw [if_neg (fun hne' => hne' hlen)]
    refine ⟨_, hfr, rfl, rfl, npArgmax_lt_length (p :: ps) hne,
      fun j hj => npArgmax_is_max (p :: ps) j hj, ?_⟩
    intro j _ heq
    by_contra hlt
    push_neg at hlt
    exact absurd heq (ne_of_lt (npArgmax_first (p :: ps) j hlt))

/-- C3 witness: the tie `[1, 1]` is broken in favor of the first label. -/
theorem claim_C3_witness :
    ∃ r, formatResult [1, 1] ["x", "y"] [] = PredictResult.success r ∧
      r.emotion = "x" := by
  obtain ⟨r, h1, h2, -⟩ :=
    claim_C3_argmax_emotion [1, 1] ["x", "y"] [] (by decide) (by simp)
  exact ⟨r, h1, by rw [h2]; decide⟩

/-- C4 as stated is refuted at the empty score vector with an empty
label list: the lengths agree, yet the formatter produces a Failure
(from the `ValueError` that `np.argmax` raises on an empty sequence,
caught by the `except` branch). -/
theorem claim_C4_counterexample :
    formatResult ([] : List ℚ) ([] : List String) [] =
      PredictResult.failure emptyArgmaxMsg ∧
    ([] : List ℚ).length = ([] : List String).length :=
  ⟨rfl, rfl⟩

/-- C4 amended: the formatter produces a Failure iff the score and label
counts differ or the score vector is empty; a length mismatch yields the
message that names both lengths (in decimal) and opens by stating the
size the model produced. -/
theorem claim_C4_failure_iff (preds : List ℚ) (labels : List String) (t : List Char) :
    ((∃ e, formatResult preds labels t = PredictResult.failure e) ↔
      preds.length ≠ labels.length ∨ preds = []) ∧
    (preds.length ≠ labels.length →
      formatResult preds labels t =
        PredictResult.failure (mismatchMsg preds.length labels.length)) ∧
    (∃ a b : String,
      mismatchMsg preds.length labels.length = a ++ (toString preds.length ++ b)) ∧
    (∃ a b : String,
      mismatchMsg preds.length labels.length = a ++ (toString labels.length ++ b)) ∧
    (∃ b : String, mismatchMsg preds.length labels.length =
      "Model output size (" ++ (toString preds.length ++ b)) := by
  refine ⟨⟨?_, ?_⟩, ?_, ?_, ?_, ?_⟩
  · rintro ⟨e, he⟩
    by_contra hcon
    push_neg at hcon
    obtain ⟨h1, h2⟩ := hcon
    unfold formatResult at he
    rw [if_neg (fun hne' => hne' h1)] at he
    cases preds with
    | nil => exact h2 rfl
    | cons p ps => exact absurd he (by simp)
  · rintro (h | h)
    · exact ⟨mismatchMsg preds.length labels.length, by unfold formatResult; rw [if_pos h]⟩
    · subst h
      by_cases hll : ([] : List ℚ).length ≠ labels.length
      · exact ⟨mismatchMsg ([] : List ℚ).length labels.length, by unfold formatResult; rw [if_pos hll]⟩
      · exact ⟨emptyArgmaxMsg, by unfold formatResult; rw [if_neg hll]⟩
  · intro h
    unfold formatResult
    rw [if_pos h]
  · exact ⟨"Model output size (",
      ") doesn\x27t match emotion labels count (" ++ (toString labels.length ++
        ("). Model expects " ++ (toString preds.length ++ " emotions."))),
      by simp [mismatchMsg, String.append_assoc]⟩
  · exact ⟨"Model output size (" ++ (toString preds.length ++
        ") doesn\x27t match emotion labels count ("),
      "). Model expects " ++ (toString preds.length ++ " emotions."),
      by simp [mismatchMsg, String.append_assoc]⟩
  · exact ⟨") doesn\x27t match emotion labels count (" ++ (toString labels.length ++
        ("). Model expects " ++ (toString preds.length ++ " emotions."))),
      by simp [mismatchMsg, String.append_assoc]⟩

/-- C4 witness: three scores against two labels is rejected with the
message naming 3 and 2. -/
theorem claim_C4_witness :
    formatResult [1, 1, 2] ["a", "b"] [] =
      PredictResult.failure (mismatchMsg 3 2) :=
  (claim_C4_failure_iff [1, 1, 2] ["a", "b"] []).2.1 (by decide)

/-- C6: in every successful result, `tokens_used` equals
`np.count_nonzero` of the token sequence fed to the model, which equals
the minimum of the normalized word count and `max_length`. -/
theorem claim_C6_tokens_used (preds : List ℚ) (labels : List String) (t : List Char)
    (r : SuccessPayload) (h : formatResult preds labels t = PredictResult.success r) :
    r.tokens_used = countNonzero (tokenize t) ∧
    r.tokens_used = min (pySplit (preprocessText t)).length maxLength := by
  obtain ⟨-, -, hr⟩ := formatResult_success_inv preds labels t r h
  subst hr
  exact ⟨rfl, countNonzero_tokenize t⟩

/-- C6 witness: "i am happy" uses 3 of the 80 slots. -/
theorem claim_C6_witness :
    countNonzero (tokenize "i am happy".data) =
      min (pySplit (preprocessText "i am happy".data)).length maxLength ∧
    countNonzero (tokenize "i am happy".data) = 3 := by
  obtain ⟨h1, h2⟩ := claim_C6_tokens_used [1] ["x"] "i am happy".data
    { emotion := "x", confidence := 1, scores := [("x", 1)], model := "bilstm_onnx",
      text_length := 10, tokens_used := 3 } (by decide)
  exact ⟨h1.symm.trans h2, h1.symm⟩

/-- C7 as stated is refuted by a duplicated label list: with labels
`["a", "a"]` and two scores the formatting succeeds, but the Python dict
collapses the two assignments to `scores["a"]`, leaving one entry
instead of one per output class. -/
theorem claim_C7_counterexample :
    formatResult [1, 1] ["a", "a"] [] = PredictResult.success
      { emotion := "a", confidence := 1, scores := [("a", 1)],
        model := "bilstm_onnx", text_length := 0, tokens_used := 0 } ∧
    [("a", (1 : ℚ))].length ≠ ["a", "a"].length :=
  ⟨by decide, by decide⟩

/-- C7 amended: when the caller-supplied labels are pairwise distinct,
every successful formatting yields a scores map with exactly one entry
per label (and hence one per model output class), pairing `label[i]`
with `rawScores[i]`. -/
theorem claim_C7_scores_entries (preds : List ℚ) (labels : List String) (t : List Char)
    (r : SuccessPayload) (hnd : labels.Nodup)
    (h : formatResult preds labels t = PredictResult.success r) :
    r.scores.length = labels.length ∧ r.scores.length = preds.length ∧
    ∀ j < labels.length, (labels.getD j "", preds.getD j 0) ∈ r.scores := by
  obtain ⟨hlen, -, hr⟩ := formatResult_success_inv preds labels t r h
  subst hr
  obtain ⟨hl, -, hidx⟩ := scoresDictAux_spec preds labels 0 []
    hnd (by intro l _ v hv; simp at hv)
  refine ⟨?_, ?_, ?_⟩
  · show (scoresDict preds labels).length = labels.length
    unfold scoresDict
    rw [hl]
    simp
  · show (scoresDict preds labels).length = preds.length
    unfold scoresDict
    rw [hl, hlen]
    simp
  · intro j hj
    have := hidx j hj
    simpa using this

/-- C7 witness: two distinct labels produce two entries pairing each
label with its score. -/
theorem claim_C7_witness :
    ({ emotion := "y", confidence := 2, scores := [("x", 1), ("y", 2)],
       model := "bilstm_onnx", text_length := 0,
       tokens_used := 0 } : SuccessPayload).scores.length = ["x", "y"].length :=
  (claim_C7_scores_entries [1, 2] ["x", "y"] [] _ (by decide) (by decide)).1

/-- C10: in every successful result, `text_length` is the character
length of the raw input text handed to `predict_emotion`, not of the
normalized text or the token sequence. -/
theorem claim_C10_text_length (preds : List ℚ) (labels : List String) (t : List Char)
    (r : SuccessPayload) (h : formatResult preds labels t = PredictResult.success r) :
    r.text_length = t.length := by
  obtain ⟨-, -, hr⟩ := formatResult_success_inv preds labels t r h
  subst hr
  rfl

/-- C10 witness: for the raw input "Hi!! 123" the reported length is 8,
while the normalized text has length 2 and the token sequence length
80. -/
theorem claim_C10_witness :
    "Hi!! 123".data.length = 8 ∧
    (preprocessText "Hi!! 123".data).length = 2 ∧
    (tokenize "Hi!! 123".data).length = 80 ∧
    ({ emotion := "x", confidence := 1, scores := [("x", 1)], model := "bilstm_onnx",
       text_length := 8, tokens_used := 1 } : SuccessPayload).text_length =
      "Hi!! 123".data.length :=
  ⟨by decide, by decide, by decide,
    claim_C10_text_length [1] ["x"] "Hi!! 123".data _ (by decide)⟩

/-- C1 as stated is refuted: a label-count mismatch makes
`predict_emotion` return a failure result, which `main` prints and then
falls off the end of the `try` block, so the process exits with status 0
even though the printed JSON has `success=false`. -/
theorem claim_C1_counterexample :
    mainRun ["python", "model.onnx", "hello", "a,b"] true
        (Except.ok ()) (Except.ok [1, 1, 2]) =
      (PredictResult.failure (mismatchMsg 3 2), 0) := by decide

/-- C1 amended: the exit status is 0 iff the runtime dependency is
present, at least three CLI arguments are given, the text is not blank,
and the model load succeeded; in particular every printed success has
exit status 0, but label-count mismatches and inference exceptions are
printed as failures with exit status 0 as well (only missing dependency,
bad arguments, empty text and model-load failure exit non-zero). -/
theorem claim_C1_exit_status (argv : List String) (dep : Bool)
    (load : Except String Unit) (infer : Except String (List ℚ)) :
    ((mainRun argv dep load infer).2 = 0 ↔
      dep = true ∧ 4 ≤ argv.length ∧ isBlank (argv.getD 2 "").data = false ∧
        ∃ u, load = Except.ok u) ∧
    (∀ r, (mainRun argv dep load infer).1 = PredictResult.success r →
      (mainRun argv dep load infer).2 = 0) := by
  cases dep with
  | false =>
    have hm : mainRun argv false load infer = (.failure depMsg, 1) := by
      simp [mainRun]
    rw [hm]
    refine ⟨⟨fun h => absurd h (by simp), ?_⟩, fun r hr => absurd hr (by simp)⟩
    rintro ⟨h, -⟩
    exact absurd h (by simp)
  | true =>
    by_cases hlen : argv.length < 4
    · have hm : mainRun argv true load infer = (.failure usageMsg, 1) := by
        simp [mainRun, hlen]
      rw [hm]
      refine ⟨⟨fun h => absurd h (by simp), ?_⟩, fun r hr => absurd hr (by simp)⟩
      rintro ⟨-, hge, -⟩
      omega
    · cases hblank : isBlank (argv.getD 2 "").data with
      | true =>
        have hblank' : isBlank (argv[2]?.getD "").data = true := by simpa using hblank
        have hm : mainRun argv true load infer = (.failure emptyTextMsg, 1) := by
          simp [mainRun, hlen, hblank']
        rw [hm]
        refine ⟨⟨fun h => absurd h (by simp), ?_⟩, fun r hr => absurd hr (by simp)⟩
        rintro ⟨-, -, hbf, -⟩
        exact absurd hbf (by simp)
      | false =>
        have hblank' : isBlank (argv[2]?.getD "").data = false := by simpa using hblank
        cases load with
        | error e =>
          have hm : mainRun argv true (Except.error e) infer =
              (.failure ("Failed to load ONNX model: " ++ e), 1) := by
            simp [mainRun, hlen, hblank']
          rw [hm]
          refine ⟨⟨fun h => absurd h (by simp), ?_⟩, fun r hr => absurd hr (by simp)⟩
          rintro ⟨-, -, -, u, hu⟩
          exact absurd hu (by simp)
        | ok u =>
          cases infer with
          | error e =>
            have hm : mainRun argv true (Except.ok u) (Except.error e) =
                (.failure ("Prediction failed: " ++ e), 0) := by
              simp [mainRun, hlen, hblank']
            rw [hm]
            exact ⟨⟨fun _ => ⟨rfl, Nat.le_of_not_lt hlen, rfl, u, rfl⟩, fun _ => rfl⟩,
              fun r _ => rfl⟩
          | ok preds =>
            have hm : mainRun argv true (Except.ok u) (Except.ok preds) =
                (formatResult preds (pySplitComma (argv.getD 3 ""))
                  (argv.getD 2 "").data, 0) := by
              simp [mainRun, hlen, hblank']
            rw [hm]
            exact ⟨⟨fun _ => ⟨rfl, Nat.le_of_not_lt hlen, rfl, u, rfl⟩, fun _ => rfl⟩,
              fun r _ => rfl⟩

/-- C1 witness: a fully successful invocation exits with status 0. -/
theorem claim_C1_witness :
    mainRun ["python", "model.onnx", "hi", "x"] true (Except.ok ()) (Except.ok [1]) =
      (PredictResult.success
        { emotion := "x", confidence := 1, scores := [("x", 1)],
          model := "bilstm_onnx", text_length := 2, tokens_used := 1 }, 0) ∧
    (mainRun ["python", "model.onnx", "hi", "x"] true (Except.ok ()) (Except.ok [1])).2 = 0 :=
  ⟨by decide,
    (claim_C1_exit_status ["python", "model.onnx", "hi", "x"] true
        (Except.ok ()) (Except.ok [1])).1.mpr ⟨rfl, by decide, by decide, (), rfl⟩⟩
